import Mathlib

/-!
Verification development for the closepackstack repository
(source: closepackstack.py).

Modelling conventions:
* Python floats are modelled as rationals (ℚ); the algebraic relations the
  program maintains (x = fx * a, and so on) are exact over ℚ.
* Python objects (Lattice, Site, Structure) are modelled with value
  semantics: every mutating property setter of the source becomes a pure
  function returning the updated record.  The source keeps the lattice
  synchronised between a Structure and its Sites by eagerly re-pushing the
  lattice on every structure-level mutation, so the observable values are
  captured faithfully by explicit propagation functions.
* Python division raises ZeroDivisionError at a zero divisor; here division
  is Lean's total division on ℚ, and every theorem that relies on a divisor
  carries the corresponding nonzero hypothesis, so nothing is asserted at
  points where the source would raise.
* Fallible control flow of the build routine (drawing from an empty cyclic
  cursor raises IndexError; finishing the loop with zero iterations leaves
  the local variable holding the last layer unbound, raising NameError) is
  modelled with Option: the function returns none exactly where the source
  raises.
* The iterator state (current / lo / high) that Structure keeps only to
  implement the Python iteration protocol is not part of the model; a full
  pass of the source's iteration over a layer visits exactly the list of
  its sites in order, which is how iteration is rendered here.
-/

namespace CPS

/-- The six scalar unit-cell parameters of closepackstack.Lattice:
the fields a, b, c (lengths) and al, be, ga (angles). -/
structure Lattice where
  a : ℚ
  b : ℚ
  c : ℚ
  al : ℚ
  be : ℚ
  ga : ℚ
  deriving DecidableEq

/-- Model of Lattice.__hash__: the hash is a function of exactly the tuple
(a, b, c, al, be, ga).  The Python hash of that tuple is modelled by the
tuple itself (an injective stand-in; only the direction "equal tuples give
equal hashes" is ever used). -/
def Lattice.pyHash (L : Lattice) : ℚ × ℚ × ℚ × ℚ × ℚ × ℚ :=
  (L.a, L.b, L.c, L.al, L.be, L.ga)

/-- A closepackstack.Site.  Site inherits from Lattice, so besides the
reference to its associated lattice (field latt, the _latt attribute) it
carries its own copy of the six scalar fields, kept in sync by the
overridden setters.  Coordinates are stored both fractionally (fx, fy, fz)
and absolutely (x, y, z). -/
structure Site where
  latt : Lattice
  a : ℚ
  b : ℚ
  c : ℚ
  al : ℚ
  be : ℚ
  ga : ℚ
  name : String
  specie : String
  occ : ℚ
  biso : ℚ
  fx : ℚ
  fy : ℚ
  fz : ℚ
  x : ℚ
  y : ℚ
  z : ℚ
  deriving DecidableEq

/-- Site.fx setter: _fx = value; _x = _fx * self.a. -/
def Site.set_fx (s : Site) (v : ℚ) : Site :=
  { s with fx := v, x := v * s.a }

/-- Site.fy setter: _fy = value; _y = _fy * self.b. -/
def Site.set_fy (s : Site) (v : ℚ) : Site :=
  { s with fy := v, y := v * s.b }

/-- Site.fz setter: _fz = value; _z = _fz * self.c. -/
def Site.set_fz (s : Site) (v : ℚ) : Site :=
  { s with fz := v, z := v * s.c }

/-- Site.x setter: _x = value; _fx = _x / self.a. -/
def Site.set_x (s : Site) (v : ℚ) : Site :=
  { s with x := v, fx := v / s.a }

/-- Site.y setter: _y = value; _fy = self.y / self.b. -/
def Site.set_y (s : Site) (v : ℚ) : Site :=
  { s with y := v, fy := v / s.b }

/-- Site.z setter: _z = value; _fz = self.z / self.c. -/
def Site.set_z (s : Site) (v : ℚ) : Site :=
  { s with z := v, fz := v / s.c }

/-- Site.a setter (overriding Lattice.a): _a = value; self.latt.a = value;
then, when the absolute coordinate exists, self.fx = self.x / value, which
through the fx setter recomputes _x = _fx * a with the new a. -/
def Site.set_a (s : Site) (v : ℚ) : Site :=
  let s1 : Site := { s with a := v, latt := { s.latt with a := v } }
  s1.set_fx (s1.x / v)

/-- Site.b setter (overriding Lattice.b), analogous to Site.set_a. -/
def Site.set_b (s : Site) (v : ℚ) : Site :=
  let s1 : Site := { s with b := v, latt := { s.latt with b := v } }
  s1.set_fy (s1.y / v)

/-- Site.c setter (overriding Lattice.c): _c = value; self.latt.c = value;
self.fz = self.z / value.  Note that this preserves the absolute z and
recomputes the fractional fz from it. -/
def Site.set_c (s : Site) (v : ℚ) : Site :=
  let s1 : Site := { s with c := v, latt := { s.latt with c := v } }
  s1.set_fz (s1.z / v)

/-- Lattice.al setter as inherited by Site: only _al is assigned. -/
def Site.set_al (s : Site) (v : ℚ) : Site := { s with al := v }

/-- Lattice.be setter as inherited by Site: only _be is assigned. -/
def Site.set_be (s : Site) (v : ℚ) : Site := { s with be := v }

/-- Lattice.ga setter as inherited by Site: only _ga is assigned. -/
def Site.set_ga (s : Site) (v : ℚ) : Site := { s with ga := v }

/-- Site.setlatt(listvalues): the sequential tuple assignment
self.a, self.b, self.c, self.al, self.be, self.ga = listvalues. -/
def Site.setlatt (s : Site) (la lb lc lal lbe lga : ℚ) : Site :=
  (((((s.set_a la).set_b lb).set_c lc).set_al lal).set_be lbe).set_ga lga

/-- Site.latt setter in the re-association branch (the site already has a
lattice): _latt = lattice; self.setlatt(self._latt.list). -/
def Site.assocLatt (s : Site) (L : Lattice) : Site :=
  let s1 : Site := { s with latt := L }
  s1.setlatt L.a L.b L.c L.al L.be L.ga

/-- Site.__init__(specie, occupancy, fx, fy, fz, Biso, lattice): the latt
reference is installed, the inherited scalar fields are initialised from
the lattice (the hasattr guard in the coordinate recompute is still false
at that point), the atom decorations are stored, the fractional setters
run (computing the first absolute coordinates), and finally the absolute
setters run with fx * a, fy * b, fz * c. -/
def Site.make (specie : String) (occupancy fx fy fz biso : ℚ) (L : Lattice) : Site :=
  let s0 : Site :=
    { latt := L, a := L.a, b := L.b, c := L.c, al := L.al, be := L.be, ga := L.ga,
      name := specie, specie := specie, occ := occupancy, biso := biso,
      fx := 0, fy := 0, fz := 0, x := 0, y := 0, z := 0 }
  (((((s0.set_fx fx).set_fy fy).set_fz fz).set_x (fx * L.a)).set_y (fy * L.b)).set_z (fz * L.c)

/-- Model of the inherited Site.__hash__, reading the site's own scalar
fields self.a .. self.ga. -/
def Site.pyHash (s : Site) : ℚ × ℚ × ℚ × ℚ × ℚ × ℚ :=
  (s.a, s.b, s.c, s.al, s.be, s.ga)

/-- A closepackstack.Structure: an ordered list of sites plus the shared
lattice; like Site it inherits Lattice's six scalar fields. -/
structure Structure where
  latt : Lattice
  a : ℚ
  b : ℚ
  c : ℚ
  al : ℚ
  be : ℚ
  ga : ℚ
  sites : List Site
  deriving DecidableEq

/-- Structure.latt setter: _latt = lattice; for site in self.sites:
site.latt = self._latt (re-associating every site). -/
def Structure.set_latt (st : Structure) (L : Lattice) : Structure :=
  { st with latt := L, sites := st.sites.map (fun s => s.assocLatt L) }

/-- Structure.a setter (overriding Lattice.a): _a = value;
self.latt.a = value; self.latt = self.latt (pushing the lattice to every
site). -/
def Structure.set_a (st : Structure) (v : ℚ) : Structure :=
  let st1 : Structure := { st with a := v, latt := { st.latt with a := v } }
  st1.set_latt st1.latt

/-- Structure.b setter, analogous to Structure.set_a. -/
def Structure.set_b (st : Structure) (v : ℚ) : Structure :=
  let st1 : Structure := { st with b := v, latt := { st.latt with b := v } }
  st1.set_latt st1.latt

/-- Structure.c setter: _c = value; self.latt.c = value;
self.latt = self.latt. -/
def Structure.set_c (st : Structure) (v : ℚ) : Structure :=
  let st1 : Structure := { st with c := v, latt := { st.latt with c := v } }
  st1.set_latt st1.latt

/-- Structure.__init__(sites, lattice): store the site list, assign the
latt property (re-associating every site), then run
Lattice.__init__(*self.latt.list), whose assignments to a, b and c hit the
overridden Structure setters (each re-pushing the lattice) while al, be
and ga hit the plain Lattice setters. -/
def Structure.make (sites : List Site) (L : Lattice) : Structure :=
  let st0 : Structure :=
    { latt := L, a := 0, b := 0, c := 0, al := 0, be := 0, ga := 0, sites := sites }
  let st1 := st0.set_latt L
  let st2 := ((st1.set_a L.a).set_b L.b).set_c L.c
  { st2 with al := L.al, be := L.be, ga := L.ga }

/-- Model of the inherited Structure.__hash__, reading the structure's own
scalar fields. -/
def Structure.pyHash (st : Structure) : ℚ × ℚ × ℚ × ℚ × ℚ × ℚ :=
  (st.a, st.b, st.c, st.al, st.be, st.ga)

/-- Lattice.__eq__ between two Structures (both are Lattice instances):
self.__hash__() == other.__hash__(). -/
def Structure.pyEq (st1 st2 : Structure) : Bool :=
  decide (st1.pyHash = st2.pyHash)

/-- Lattice.__eq__ between a Structure and a bare Lattice. -/
def Structure.pyEqLatt (st : Structure) (L : Lattice) : Bool :=
  decide (st.pyHash = L.pyHash)

/-- Lattice.__eq__ between a Site and a bare Lattice. -/
def Site.pyEqLatt (s : Site) (L : Lattice) : Bool :=
  decide (s.pyHash = L.pyHash)

/-- The PeriodicCycle iterator: a finite list together with the cursor
position (the attributes low = 0 and high = len - 1 are recomputed from
the list). -/
structure PeriodicCycle (α : Type) where
  iterable : List α
  current : ℕ
  deriving DecidableEq

/-- PeriodicCycle.__next__: if self.current > self.high then
self.current = self.low; self.current += 1; return
self.iterable[self.current - 1].  Indexing an empty list raises
IndexError, modelled by none. -/
def PeriodicCycle.next {α : Type} (p : PeriodicCycle α) : Option (α × PeriodicCycle α) :=
  let cur := if p.current > p.iterable.length - 1 then 0 else p.current
  match p.iterable[cur]? with
  | none => none
  | some v => some (v, { p with current := cur + 1 })

/-- The element produced by the (k+1)-st call to next, starting from the
given cursor state (k = 0 is the first draw). -/
def PeriodicCycle.nth {α : Type} (p : PeriodicCycle α) : ℕ → Option α
  | 0 => p.next.map Prod.fst
  | k + 1 =>
    match p.next with
    | none => none
    | some (_, p1) => p1.nth k

/-- The cursor position of a PeriodicCycle after k draws from a fresh
cursor: 0 initially, and after the k-th draw the drawn index plus one,
that is, (k - 1) mod N + 1 for k at least 1. -/
def cursorAfter (N k : ℕ) : ℕ := if k = 0 then 0 else (k - 1) % N + 1

/-- A 3-vector of scalars (the numpy arrays used for column vectors,
interlayer vectors and the running origin). -/
structure Vec3 where
  x : ℚ
  y : ℚ
  z : ℚ
  deriving DecidableEq

/-- The interlayervectors default of build: if interlayervectors is None
it becomes the one-element list holding the zero vector; otherwise it is
used as given. -/
def defaultedIV (ivs : Option (List Vec3)) : List Vec3 :=
  match ivs with
  | none => [{ x := 0, y := 0, z := 0 }]
  | some l => l

/-- Python's coord % 1 for a float coordinate: the representative of coord
modulo 1 lying in [0, 1). -/
def pyMod1 (q : ℚ) : ℚ := q - ⌊q⌋

/-- The per-site body of the emission loop in build: rv = site.copy();
rv.x += vx * layer.a; rv.y += vy * layer.b; rv.z += origin[-1].
(layer.a and layer.b are the structure's own inherited scalars; the copy
is independent, so mutating it cannot affect the input site.) -/
def emitSite (layer : Structure) (vector : Vec3) (originz : ℚ) (site : Site) : Site :=
  let rv1 := site.set_x (site.x + vector.x * layer.a)
  let rv2 := rv1.set_y (rv1.y + vector.y * layer.b)
  rv2.set_z (rv2.z + originz)

/-- The state threaded through build's main loop: the two cyclic cursors,
the running origin, the output site list, and the (layer, vector) pair
most recently bound by the loop (none when the loop has not yet run; the
source would raise NameError on reading layer in that case). -/
structure BuildState where
  ss : PeriodicCycle (Structure × Vec3)
  iv : PeriodicCycle Vec3
  origin : Vec3
  sites : List Site
  last : Option (Structure × Vec3)
  deriving DecidableEq

/-- One iteration of build's loop at index idx: draw (layer, vector) from
the sequence cursor, append shifted copies of the layer's sites, and — at
a completed block boundary other than step 0 — draw the next interlayer
vector and add it into the origin; finally advance origin.z by
vector.z * layer.c.  The source performs origin += next(iv) followed by
origin[-1] += vector[-1] * layer.c; both updates are combined in the
origin record written here, component for component. -/
def buildStep (blockperiod idx : ℕ) (st : BuildState) : Option BuildState :=
  match st.ss.next with
  | none => none
  | some (lv, ss1) =>
    let layer := lv.1
    let vector := lv.2
    let newsites := st.sites ++ layer.sites.map (emitSite layer vector st.origin.z)
    if idx ≠ 0 ∧ (idx + 1) % blockperiod = 0 then
      match st.iv.next with
      | none => none
      | some (v, iv1) =>
        some { ss := ss1, iv := iv1,
               origin := { x := st.origin.x + v.x, y := st.origin.y + v.y,
                           z := st.origin.z + v.z + vector.z * layer.c },
               sites := newsites, last := some (layer, vector) }
    else
      some { ss := ss1, iv := st.iv,
             origin := { st.origin with z := st.origin.z + vector.z * layer.c },
             sites := newsites, last := some (layer, vector) }

/-- for idx in range(count): one buildStep per index, threading the state;
the first failure aborts (the source raises there). -/
def buildLoop (blockperiod : ℕ) : ℕ → ℕ → BuildState → Option BuildState
  | 0, _, st => some st
  | count + 1, idx, st =>
    match buildStep blockperiod idx st with
    | none => none
    | some st1 => buildLoop blockperiod count (idx + 1) st1

/-- The "apply periodic constraint" pass at the end of build.  In the
source, site.fxyz is a property whose getter returns a freshly allocated
numpy array of the fractional coordinates; the statement
site.fxyz[i] = coord % 1 therefore writes into that temporary array, which
is immediately discarded, and never invokes the fxyz setter.  The pass
computes the wrapped values and drops them: every site is left exactly as
it was. -/
def applyPeriodicConstraint (sites : List Site) : List Site :=
  sites.map (fun s =>
    let _ := [s.fx, s.fy].map (fun coord => if 1 < |coord| then pyMod1 coord else coord)
    s)

/-- build(sequence, interlayervectors, blockperiod, Nblocks): wrap the two
inputs in cyclic cursors (None interlayervectors defaults to a single zero
vector), run Nblocks * blockperiod loop iterations from a zero origin,
then read the lattice of the last bound layer (NameError — none — when the
loop never ran), overwrite its c entry with the accumulated origin.z, run
the (ineffective) periodic-constraint pass, and pack the emitted sites
with the new lattice into a Structure. -/
def build (sequence : List (Structure × Vec3)) (interlayervectors : Option (List Vec3))
    (blockperiod Nblocks : ℕ) : Option Structure :=
  let ivlist := defaultedIV interlayervectors
  let init : BuildState :=
    { ss := { iterable := sequence, current := 0 },
      iv := { iterable := ivlist, current := 0 },
      origin := { x := 0, y := 0, z := 0 }, sites := [], last := none }
  match buildLoop blockperiod (Nblocks * blockperiod) 0 init with
  | none => none
  | some finSt =>
    match finSt.last with
    | none => none
    | some lv =>
      let slatt : Lattice := { lv.1.latt with c := finSt.origin.z }
      some (Structure.make (applyPeriodicConstraint finSt.sites) slatt)

/-- The number of loop indices i < n at which build injects an interlayer
vector, that is, at which i is nonzero and (i + 1) mod blockperiod = 0. -/
def injCount (bp : ℕ) : ℕ → ℕ
  | 0 => 0
  | k + 1 => injCount bp k + (if k ≠ 0 ∧ (k + 1) % bp = 0 then 1 else 0)

/-- The height contribution vector.z * layer.c of the pair drawn at loop
index idx: the sequence is consumed cyclically, so the pair is
sequence[idx mod len] (0 for the impossible out-of-range read of an empty
sequence, on which build fails before this quantity matters). -/
def layerHeightAt (seq : List (Structure × Vec3)) (idx : ℕ) : ℚ :=
  match seq[idx % seq.length]? with
  | none => 0
  | some p => p.2.z * p.1.c

/-- The z-component of the j-th injected interlayer vector: the vector
cycle is consumed cyclically, so it is ivlist[j mod len] (0 for the
impossible out-of-range read of an empty cycle, on which build fails
before this quantity matters). -/
def ivZAt (ivlist : List Vec3) (j : ℕ) : ℚ :=
  match ivlist[j % ivlist.length]? with
  | none => 0
  | some v => v.z

/-! Concrete fixtures (small instances used to exercise the model). -/

/-- Lattice of the spec's propagation scenario: Lattice(4.93, 2.85, 1.5, 90, 90, 90). -/
def scenLatt : Lattice := { a := 493/100, b := 57/20, c := 3/2, al := 90, be := 90, ga := 90 }

/-- Site('Mn', 1, 0, 0.1, 1/3, 1, latt) of the scenario. -/
def mnSite : Site := Site.make "Mn" 1 0 (1/10) (1/3) 1 scenLatt

/-- Site('O', 1, 0, 0.1, 2/3, 1, latt) of the scenario. -/
def oSite : Site := Site.make "O" 1 0 (1/10) (2/3) 1 scenLatt

/-- Structure of the two scenario sites. -/
def scenStructure : Structure := Structure.make [mnSite, oSite] scenLatt

/-- The scenario structure after structure.c = 2.5. -/
def scenStretched : Structure := scenStructure.set_c (5/2)

/-- A unit lattice. -/
def unitLatt : Lattice := { a := 1, b := 1, c := 1, al := 90, be := 90, ga := 90 }

/-- A site at fx = 1/2 in the unit lattice. -/
def wrapSite : Site := Site.make "A" 1 (1/2) 0 0 1 unitLatt

/-- A one-site layer used to drive the wrap pass past fx = 1. -/
def wrapLayer : Structure := Structure.make [wrapSite] unitLatt

/-- One build step of wrapLayer shifted by a column vector with x = 4/5,
so the emitted site lands at fx = 1/2 + 4/5 = 1.3. -/
def wrapSeq : List (Structure × Vec3) := [(wrapLayer, { x := 4/5, y := 0, z := 1 })]

/-- A site with a nonzero absolute z (fz = 1/2 in the unit lattice). -/
def zSite : Site := Site.make "B" 1 0 0 (1/2) 1 unitLatt

/-- A one-site layer whose site sits at z = 1/2. -/
def zLayer : Structure := Structure.make [zSite] unitLatt

/-- The column vector (0, 0, 1). -/
def zVec : Vec3 := { x := 0, y := 0, z := 1 }

/-- A one-step sequence drawing zLayer. -/
def zSeq : List (Structure × Vec3) := [(zLayer, zVec)]

/-- A loop state about to draw zLayer with accumulated origin.z = 5. -/
def stepState : BuildState :=
  { ss := { iterable := zSeq, current := 0 },
    iv := { iterable := [{ x := 0, y := 0, z := 0 }], current := 0 },
    origin := { x := 0, y := 0, z := 5 }, sites := [], last := none }

/-- The state produced by one buildStep from stepState at index 0. -/
def stepResult : BuildState :=
  { ss := { iterable := zSeq, current := 1 },
    iv := { iterable := [{ x := 0, y := 0, z := 0 }], current := 0 },
    origin := { x := 0, y := 0, z := 5 + zVec.z * zLayer.c },
    sites := zLayer.sites.map (emitSite zLayer zVec 5), last := some (zLayer, zVec) }

/-- A lattice with c = 1 for the stack-height instance. -/
def c2LattA : Lattice := { a := 2, b := 3, c := 1, al := 90, be := 90, ga := 90 }

/-- A second c = 1 lattice, distinguishable through its angles. -/
def c2LattB : Lattice := { a := 2, b := 3, c := 1, al := 90, be := 95, ga := 120 }

/-- An empty unit-height layer over c2LattA. -/
def c2LayerA : Structure := Structure.make [] c2LattA

/-- An empty unit-height layer over c2LattB. -/
def c2LayerB : Structure := Structure.make [] c2LattB

/-- Two unit-height layers, both with vector.z = 1. -/
def c2Seq : List (Structure × Vec3) :=
  [(c2LayerA, { x := 0, y := 0, z := 1 }), (c2LayerB, { x := 1/2, y := 0, z := 1 })]

/-- A nontrivial interlayer-vector cycle with z = 3. -/
def stackIVW : List Vec3 := [{ x := 1/2, y := 0, z := 3 }]

/-- The structure returned by build c2Seq (some stackIVW) 2 2: four unit
height steps plus two injections of z = 3 give c = 10, and the lattice
angles come from c2LattB, the last visited layer's lattice. -/
def stackW : Structure :=
  Structure.make [] { a := 2, b := 3, c := 10, al := 90, be := 95, ga := 120 }

/-- A structure holding one site over scenLatt. -/
def eqStA : Structure := Structure.make [mnSite] scenLatt

/-- A structure with a different site list over the same lattice scalars. -/
def eqStB : Structure := Structure.make [oSite, mnSite] scenLatt

/-! Helper lemmas about the Site setters and re-association. -/

/-- Re-association installs the new lattice object itself. -/
theorem Site.assocLatt_latt (s : Site) (L : Lattice) : (s.assocLatt L).latt = L := rfl

/-- Re-association copies the new lattice's c into the site's own c field. -/
theorem Site.assocLatt_c (s : Site) (L : Lattice) : (s.assocLatt L).c = L.c := rfl

/-- Re-association copies the new lattice's a into the site's own a field. -/
theorem Site.assocLatt_a (s : Site) (L : Lattice) : (s.assocLatt L).a = L.a := rfl

/-- Re-association copies the new lattice's b into the site's own b field. -/
theorem Site.assocLatt_b (s : Site) (L : Lattice) : (s.assocLatt L).b = L.b := rfl

/-- Re-association recomputes fx as the preserved absolute x over the new a. -/
theorem Site.assocLatt_fx (s : Site) (L : Lattice) : (s.assocLatt L).fx = s.x / L.a := rfl

/-- Re-association recomputes fy as the preserved absolute y over the new b. -/
theorem Site.assocLatt_fy (s : Site) (L : Lattice) : (s.assocLatt L).fy = s.y / L.b := rfl

/-- Re-association recomputes fz as the preserved absolute z over the new c. -/
theorem Site.assocLatt_fz (s : Site) (L : Lattice) : (s.assocLatt L).fz = s.z / L.c := rfl

/-- With a nonzero new a, re-association preserves the absolute x
(the source stores x / a into fx and the fx setter writes back fx * a). -/
theorem Site.assocLatt_x (s : Site) (L : Lattice) (ha : L.a ≠ 0) :
    (s.assocLatt L).x = s.x := by
  show s.x / L.a * L.a = s.x
  exact div_mul_cancel₀ s.x ha

/-- With a nonzero new b, re-association preserves the absolute y. -/
theorem Site.assocLatt_y (s : Site) (L : Lattice) (hb : L.b ≠ 0) :
    (s.assocLatt L).y = s.y := by
  show s.y / L.b * L.b = s.y
  exact div_mul_cancel₀ s.y hb

/-- With a nonzero new c, re-association preserves the absolute z. -/
theorem Site.assocLatt_z (s : Site) (L : Lattice) (hc : L.c ≠ 0) :
    (s.assocLatt L).z = s.z := by
  show s.z / L.c * L.c = s.z
  exact div_mul_cancel₀ s.z hc

/-- Structure.set_c writes v into the structure's own c field. -/
theorem Structure.set_c_c (st : Structure) (v : ℚ) : (st.set_c v).c = v := rfl

/-- Structure.set_c writes v into the shared lattice's c. -/
theorem Structure.set_c_latt (st : Structure) (v : ℚ) :
    (st.set_c v).latt = { st.latt with c := v } := rfl

/-- Structure.set_c re-associates every site to the updated lattice. -/
theorem Structure.set_c_sites (st : Structure) (v : ℚ) :
    (st.set_c v).sites = st.sites.map (fun s => s.assocLatt { st.latt with c := v }) := rfl

/-!
C3.  The claim states that re-association preserves the fractional
coordinates and recomputes the absolute ones.  The source does the
opposite: Site.latt assignment runs setlatt, whose a/b/c setters execute
self.fx = self.x / value (and likewise for y, z), preserving the absolute
coordinates and recomputing the fractional ones from them.  Consequently,
after structure.c = 2.5 each site keeps its absolute z and reports
fz = z / 2.5, not z = fz * 2.5.
-/

/-- C3 (amended): re-associating the sites of a Structure through
structure.c = v preserves each site's absolute x, y, z and recomputes the
fractional coordinates as x/a, y/b, z/v; the nonzero hypotheses mark where
the source would raise ZeroDivisionError.  Stated for arbitrary sites as
well, since Structure.set_c re-associates exactly via Site.assocLatt. -/
theorem reassoc_preserves_absolute (st : Structure) (v : ℚ)
    (ha : st.latt.a ≠ 0) (hb : st.latt.b ≠ 0) (hv : v ≠ 0) :
    (st.set_c v).c = v ∧
    (st.set_c v).sites = st.sites.map (fun t => t.assocLatt { st.latt with c := v }) ∧
    ∀ t : Site,
      (t.assocLatt { st.latt with c := v }).x = t.x ∧
      (t.assocLatt { st.latt with c := v }).y = t.y ∧
      (t.assocLatt { st.latt with c := v }).z = t.z ∧
      (t.assocLatt { st.latt with c := v }).fx = t.x / st.latt.a ∧
      (t.assocLatt { st.latt with c := v }).fy = t.y / st.latt.b ∧
      (t.assocLatt { st.latt with c := v }).fz = t.z / v ∧
      (t.assocLatt { st.latt with c := v }).c = v := by
  refine ⟨rfl, rfl, fun t => ⟨?_, ?_, ?_, rfl, rfl, rfl, rfl⟩⟩
  · exact Site.assocLatt_x t _ ha
  · exact Site.assocLatt_y t _ hb
  · exact Site.assocLatt_z t _ hv

/-- C3 witness: the amended statement applied to the scenario structure
with v = 5/2, read off at the Mn site. -/
theorem reassoc_preserves_absolute_witness :
    (scenStructure.set_c (5/2)).c = 5/2 ∧
    (mnSite.assocLatt { scenStructure.latt with c := 5/2 }).z = mnSite.z ∧
    (mnSite.assocLatt { scenStructure.latt with c := 5/2 }).fz = mnSite.z / (5/2) := by
  obtain ⟨h1, _, h3⟩ :=
    reassoc_preserves_absolute scenStructure (5/2)
      (by norm_num [show scenStructure.latt = scenLatt from rfl, scenLatt])
      (by norm_num [show scenStructure.latt = scenLatt from rfl, scenLatt])
      (by norm_num)
  exact ⟨h1, (h3 mnSite).2.2.1, (h3 mnSite).2.2.2.2.2.1⟩

/-- C3 counterexample: in the spec scenario (sites at fz = 1/3 and 2/3 in
a c = 1.5 lattice, then structure.c = 2.5) the sites keep z = 1/2 and 1
and report fz = 1/5 and 2/5; the claimed values fz_old * 2.5 = 5/6 and 5/3
do not occur. -/
theorem reassoc_scenario_cex :
    scenStretched.sites.map Site.z = [1/2, 1] ∧
    scenStretched.sites.map Site.fz = [1/5, 2/5] ∧
    ¬ scenStretched.sites.map Site.z = [(1/3 : ℚ) * (5/2), (2/3 : ℚ) * (5/2)] := by
  norm_num [scenStretched, scenStructure, Structure.make, Structure.set_latt, Structure.set_a,
    Structure.set_b, Structure.set_c, Site.assocLatt, Site.setlatt, Site.set_a, Site.set_b,
    Site.set_c, Site.set_al, Site.set_be, Site.set_ga, Site.set_fx, Site.set_fy, Site.set_fz,
    Site.set_x, Site.set_y, Site.set_z, Site.make, mnSite, oSite, scenLatt]

/-!
C5.  Lattice propagation through Structure.c assignment.
-/

/-- C5: after S.c = v the structure's own c, the shared lattice's c, and
every site's own c and lattice c all read v.  The hypotheses exclude the
inputs on which the per-site fractional recompute of the source would
raise ZeroDivisionError (x / a, y / b run with the structure's lattice
lengths, z / v with the new value). -/
theorem structure_set_c_propagates (st : Structure) (v : ℚ)
    (ha : st.latt.a ≠ 0) (hb : st.latt.b ≠ 0) (hv : v ≠ 0) :
    (st.set_c v).c = v ∧ (st.set_c v).latt.c = v ∧
    ∀ t ∈ (st.set_c v).sites, t.c = v ∧ t.latt.c = v := by
  refine ⟨rfl, rfl, fun t ht => ?_⟩
  have ht' : t ∈ st.sites.map (fun s => s.assocLatt { st.latt with c := v }) := ht
  obtain ⟨u, _, rfl⟩ := List.mem_map.1 ht'
  exact ⟨rfl, rfl⟩

/-- C5 witness: the propagation applied to the scenario structure with
v = 5/2. -/
theorem structure_set_c_propagates_witness :
    (scenStructure.set_c (5/2)).c = 5/2 ∧ (scenStructure.set_c (5/2)).latt.c = 5/2 := by
  obtain ⟨h1, h2, _⟩ :=
    structure_set_c_propagates scenStructure (5/2)
      (by norm_num [show scenStructure.latt = scenLatt from rfl, scenLatt])
      (by norm_num [show scenStructure.latt = scenLatt from rfl, scenLatt])
      (by norm_num)
  exact ⟨h1, h2⟩

/-!
C6.  Round-trip between fractional and absolute coordinates at the Site
setters.
-/

/-- C6: with nonzero lattice lengths, setting fx then reading x yields
fx * a and setting x then reading fx yields x / a (likewise for y/b and
z/c), and each setter re-establishes x = fx * a, y = fy * b, z = fz * c
with respect to the site's currently associated lattice scalars. -/
theorem site_roundtrip (s : Site) (v w : ℚ)
    (ha : s.a ≠ 0) (hb : s.b ≠ 0) (hc : s.c ≠ 0) :
    (s.set_fx v).x = v * s.a ∧ (s.set_x w).fx = w / s.a ∧
    (s.set_fy v).y = v * s.b ∧ (s.set_y w).fy = w / s.b ∧
    (s.set_fz v).z = v * s.c ∧ (s.set_z w).fz = w / s.c ∧
    (s.set_x w).x = (s.set_x w).fx * (s.set_x w).a ∧
    (s.set_y w).y = (s.set_y w).fy * (s.set_y w).b ∧
    (s.set_z w).z = (s.set_z w).fz * (s.set_z w).c ∧
    (s.set_fx v).x = (s.set_fx v).fx * (s.set_fx v).a ∧
    (s.set_fy v).y = (s.set_fy v).fy * (s.set_fy v).b ∧
    (s.set_fz v).z = (s.set_fz v).fz * (s.set_fz v).c := by
  refine ⟨rfl, rfl, rfl, rfl, rfl, rfl, ?_, ?_, ?_, rfl, rfl, rfl⟩
  · exact (div_mul_cancel₀ w ha).symm
  · exact (div_mul_cancel₀ w hb).symm
  · exact (div_mul_cancel₀ w hc).symm

/-- C6 witness: the round-trip at the concrete Mn site with v = 2, w = 3. -/
theorem site_roundtrip_witness :
    (mnSite.set_fx 2).x = 2 * mnSite.a ∧ (mnSite.set_x 3).fx = 3 / mnSite.a ∧
    (mnSite.set_fz 2).z = 2 * mnSite.c ∧
    (mnSite.set_z 3).z = (mnSite.set_z 3).fz * (mnSite.set_z 3).c := by
  obtain ⟨h1, h2, _, _, h5, _, _, _, h9, _⟩ :=
    site_roundtrip mnSite 2 3
      (by norm_num [show mnSite.a = 493/100 from rfl])
      (by norm_num [show mnSite.b = 57/20 from rfl])
      (by norm_num [show mnSite.c = 3/2 from rfl])
  exact ⟨h1, h2, h5, h9⟩

/-!
C7.  The cyclic cursor.
-/

/-- While the cursor lies strictly inside the list, next draws the element
at the cursor and advances by one. -/
theorem PeriodicCycle.next_of_lt {α : Type} (l : List α) (c : ℕ) (h : c < l.length) :
    PeriodicCycle.next ⟨l, c⟩ = some (l[c], ⟨l, c + 1⟩) := by
  have h1 : ¬ (l.length - 1 < c) := by omega
  simp [PeriodicCycle.next, h1, List.getElem?_eq_getElem h]

/-- At the exhaustion point the cursor resets to 0, so next behaves as
from a fresh cursor. -/
theorem PeriodicCycle.next_reset {α : Type} (l : List α) (h : 0 < l.length) :
    PeriodicCycle.next ⟨l, l.length⟩ = PeriodicCycle.next ⟨l, 0⟩ := by
  have h1 : l.length - 1 < l.length := by omega
  have h2 : ¬ (l.length - 1 < 0) := by omega
  simp [PeriodicCycle.next, h1, h2]

/-- The whole draw stream from the exhaustion point equals the stream from
a fresh cursor. -/
theorem PeriodicCycle.nth_reset {α : Type} (l : List α) (h : 0 < l.length) (k : ℕ) :
    PeriodicCycle.nth ⟨l, l.length⟩ k = PeriodicCycle.nth ⟨l, 0⟩ k := by
  cases k with
  | zero => simp [PeriodicCycle.nth, PeriodicCycle.next_reset l h]
  | succ n => simp [PeriodicCycle.nth, PeriodicCycle.next_reset l h]

/-- The k-th draw from cursor position c < len is the list element at
index (c + k) mod len. -/
theorem PeriodicCycle.nth_eq {α : Type} :
    ∀ (k : ℕ) (l : List α) (c : ℕ), c < l.length →
      PeriodicCycle.nth ⟨l, c⟩ k = l[(c + k) % l.length]? := by
  intro k
  induction k with
  | zero =>
    intro l c h
    simp [PeriodicCycle.nth, PeriodicCycle.next_of_lt l c h, Nat.mod_eq_of_lt h,
      List.getElem?_eq_getElem h]
  | succ n ih =>
    intro l c h
    have hnext := PeriodicCycle.next_of_lt l c h
    simp only [PeriodicCycle.nth, hnext]
    by_cases h2 : c + 1 < l.length
    · rw [ih l (c + 1) h2, show c + 1 + n = c + (n + 1) by omega]
    · have hc1 : c + 1 = l.length := by omega
      rw [hc1, PeriodicCycle.nth_reset l (by omega), ih l 0 (by omega)]
      have e : (c + (n + 1)) % l.length = (0 + n) % l.length := by
        rw [show c + (n + 1) = l.length + n by omega, Nat.add_mod_left, Nat.zero_add]
      rw [e]

/-- C7: a cyclic cursor over a nonempty list of length N yields at draw
N + k the same element as at draw k, and every draw succeeds (the source
never raises StopIteration: past the last index it restarts at 0). -/
theorem periodic_cycle_restart {α : Type} (l : List α) (k : ℕ) (h : 0 < l.length) :
    PeriodicCycle.nth ⟨l, 0⟩ (l.length + k) = PeriodicCycle.nth ⟨l, 0⟩ k ∧
    (PeriodicCycle.nth ⟨l, 0⟩ k).isSome = true := by
  rw [PeriodicCycle.nth_eq (l.length + k) l 0 h, PeriodicCycle.nth_eq k l 0 h]
  constructor
  · rw [Nat.zero_add, Nat.zero_add, Nat.add_mod_left]
  · have hlt : k % l.length < l.length := Nat.mod_lt _ h
    simp [List.getElem?_eq_getElem hlt]

/-- C7 witness: the cycle over [10, 20, 30] (N = 3) at k = 4: draw 7
equals draw 4 and draw 4 succeeds. -/
theorem periodic_cycle_restart_witness :
    PeriodicCycle.nth (⟨[10, 20, 30], 0⟩ : PeriodicCycle ℕ) (List.length [10, 20, 30] + 4) =
      PeriodicCycle.nth (⟨[10, 20, 30], 0⟩ : PeriodicCycle ℕ) 4 ∧
    (PeriodicCycle.nth (⟨[10, 20, 30], 0⟩ : PeriodicCycle ℕ) 4).isSome = true :=
  periodic_cycle_restart [10, 20, 30] 4 (by decide)

/-!
C1.  Per-step emission.  The claim states that the emitted copy's absolute
z is overwritten with the accumulated origin.z.  The source executes
rv.z += origin[-1]: an additive shift, so the emitted z is the site's
original z plus origin.z, and equals origin.z only when the original z was
zero.
-/

/-- C1 (amended): every successful build step appends, for each site of
the drawn layer, a copy whose absolute x is shifted by vector.x * layer.a,
whose absolute y is shifted by vector.y * layer.b, and whose absolute z is
shifted additively by the accumulated origin.z (z = original z +
origin.z), not overwritten with it. -/
theorem build_emit_shifts (bp idx : ℕ) (st st1 : BuildState) (layer : Structure)
    (vector : Vec3) (ss1 : PeriodicCycle (Structure × Vec3))
    (hnext : st.ss.next = some ((layer, vector), ss1))
    (hstep : buildStep bp idx st = some st1) :
    st1.sites = st.sites ++ layer.sites.map (emitSite layer vector st.origin.z) ∧
    ∀ s : Site,
      (emitSite layer vector st.origin.z s).x = s.x + vector.x * layer.a ∧
      (emitSite layer vector st.origin.z s).y = s.y + vector.y * layer.b ∧
      (emitSite layer vector st.origin.z s).z = s.z + st.origin.z := by
  refine ⟨?_, fun s => ⟨rfl, rfl, rfl⟩⟩
  simp only [buildStep, hnext] at hstep
  split at hstep
  · cases hiv2 : st.iv.next with
    | none => simp [hiv2] at hstep
    | some pr =>
      obtain ⟨v, iv1⟩ := pr
      simp only [hiv2] at hstep
      obtain rfl := Option.some.inj hstep
      rfl
  · obtain rfl := Option.some.inj hstep
    rfl

/-- C1 witness: one step from stepState (origin.z = 5) emits the zLayer
site shifted, and the emitted z of zSite is zSite.z + 5. -/
theorem build_emit_shifts_witness :
    stepResult.sites = stepState.sites ++
      zLayer.sites.map (emitSite zLayer zVec stepState.origin.z) ∧
    (emitSite zLayer zVec stepState.origin.z zSite).z = zSite.z + stepState.origin.z := by
  have h := build_emit_shifts 1 0 stepState stepResult zLayer zVec
    { iterable := zSeq, current := 1 }
    (by simp [stepState, PeriodicCycle.next, zSeq])
    (by simp [buildStep, stepState, stepResult, PeriodicCycle.next, zSeq])
  exact ⟨h.1, (h.2 zSite).2.2⟩

/-- C1 counterexample: a single build step over a layer whose site sits at
z = 1/2 while the accumulated origin.z is 0 (first step).  The emitted —
and returned — site has z = 1/2 + 0 = 1/2, not the origin.z value 0 that
the claim's overwrite semantics would give. -/
theorem build_emit_z_additive_cex :
    (build zSeq none 1 1).map (fun st => st.sites.map Site.z) = some [1/2] ∧
    ((1 : ℚ)/2 ≠ 0) := by
  constructor
  · norm_num [build, defaultedIV, buildLoop, buildStep, PeriodicCycle.next, emitSite,
      applyPeriodicConstraint, zSeq, zLayer, zVec, zSite, unitLatt, Structure.make,
      Structure.set_latt, Structure.set_a, Structure.set_b, Structure.set_c, Site.assocLatt,
      Site.setlatt, Site.set_a, Site.set_b, Site.set_c, Site.set_al, Site.set_be, Site.set_ga,
      Site.set_fx, Site.set_fy, Site.set_fz, Site.set_x, Site.set_y, Site.set_z, Site.make]
  · norm_num

/-!
C2.  Stack height and superlattice derivation.
-/

/-- Drawing from a cursor whose iterable is the one-element list [v]
always yields v with the cursor at 1, from any current position. -/
theorem PeriodicCycle.next_of_singleton {α : Type} (p : PeriodicCycle α) (v : α)
    (h : p.iterable = [v]) : p.next = some (v, { iterable := [v], current := 1 }) := by
  unfold PeriodicCycle.next
  rw [h]
  by_cases hc : p.current > List.length [v] - 1
  · simp [hc]
  · have hc0 : p.current = 0 := by simp at hc; omega
    simp [hc, hc0]

/-- A build step whose sequence draw succeeds and whose interlayer cursor
cycles over the single zero vector always succeeds, advances the stream
state, keeps the zero-vector cycle, adds vector.z * layer.c to origin.z
(the zero interlayer draw contributes nothing), and records the drawn pair
as the loop's last binding. -/
theorem buildStep_origin (bp idx : ℕ) (st : BuildState) (p : Structure × Vec3)
    (ss1 : PeriodicCycle (Structure × Vec3))
    (hnext : st.ss.next = some (p, ss1)) (hiv : st.iv.iterable = [{ x := 0, y := 0, z := 0 }]) :
    ∃ st1, buildStep bp idx st = some st1 ∧ st1.ss = ss1 ∧
      st1.iv.iterable = [{ x := 0, y := 0, z := 0 }] ∧
      st1.origin.z = st.origin.z + p.2.z * p.1.c ∧ st1.last = some p := by
  obtain ⟨layer, vector⟩ := p
  have hivnext := PeriodicCycle.next_of_singleton st.iv { x := 0, y := 0, z := 0 } hiv
  by_cases hinj : idx ≠ 0 ∧ (idx + 1) % bp = 0
  · have hstep : buildStep bp idx st = some
        { ss := ss1, iv := ⟨[{ x := 0, y := 0, z := 0 }], 1⟩,
          origin := { x := st.origin.x + 0, y := st.origin.y + 0,
                      z := st.origin.z + 0 + vector.z * layer.c },
          sites := st.sites ++ layer.sites.map (emitSite layer vector st.origin.z),
          last := some (layer, vector) } := by
      simp only [buildStep, hnext, hivnext, if_pos hinj]
    exact ⟨_, hstep, rfl, rfl, by simp, rfl⟩
  · have hstep : buildStep bp idx st = some
        { ss := ss1, iv := st.iv,
          origin := { st.origin with z := st.origin.z + vector.z * layer.c },
          sites := st.sites ++ layer.sites.map (emitSite layer vector st.origin.z),
          last := some (layer, vector) } := by
      simp only [buildStep, hnext, if_neg hinj]
    exact ⟨_, hstep, rfl, hiv, rfl, rfl⟩

/-- Loop invariant for build with blockperiod = seq.length: running the
remaining count steps from cursor position idx (with idx + count =
seq.length) succeeds, adds the height contributions vector.z * layer.c of
the remaining sequence entries to origin.z, and leaves the last drawn pair
equal to the final sequence entry. -/
theorem buildLoop_inv (seq : List (Structure × Vec3)) :
    ∀ (count idx : ℕ) (st : BuildState),
      idx + count = seq.length →
      st.ss = ⟨seq, idx⟩ →
      st.iv.iterable = [{ x := 0, y := 0, z := 0 }] →
      ∃ st1, buildLoop seq.length count idx st = some st1 ∧
        st1.origin.z = st.origin.z + ((seq.drop idx).map (fun p => p.2.z * p.1.c)).sum ∧
        (0 < count → st1.last = seq[seq.length - 1]?) ∧
        (count = 0 → st1 = st) := by
  intro count
  induction count with
  | zero =>
    intro idx st h hss hiv
    refine ⟨st, rfl, ?_, ?_, fun _ => rfl⟩
    · have hd : seq.drop idx = [] := List.drop_eq_nil_of_le (by omega)
      simp [hd]
    · intro hk
      exact absurd hk (by omega)
  | succ n ih =>
    intro idx st h hss hiv
    have hidx : idx < seq.length := by omega
    have hnext : st.ss.next = some (seq[idx], ⟨seq, idx + 1⟩) := by
      rw [hss]
      exact PeriodicCycle.next_of_lt seq idx hidx
    obtain ⟨st1, hstep, hss1, hiv1, hz1, hlast1⟩ :=
      buildStep_origin seq.length idx st seq[idx] ⟨seq, idx + 1⟩ hnext hiv
    obtain ⟨st2, hloop, hz2, hlast2, heq2⟩ := ih (idx + 1) st1 (by omega) hss1 hiv1
    refine ⟨st2, ?_, ?_, ?_, ?_⟩
    · simp only [buildLoop, hstep]
      exact hloop
    · rw [hz2, hz1, List.drop_eq_getElem_cons hidx]
      simp only [List.map_cons, List.sum_cons]
      ring
    · intro _
      cases n with
      | zero =>
        rw [heq2 rfl, hlast1]
        have e1 : seq.length - 1 = idx := by omega
        rw [e1, List.getElem?_eq_getElem hidx]
      | succ m => exact hlast2 (by omega)
    · intro hk
      exact absurd hk (by omega)

/-- For unit-height layers with unit vector.z, the summed height
contributions count the layers. -/
theorem sum_heights_of_unit (seq : List (Structure × Vec3))
    (hall : ∀ p ∈ seq, p.1.c = 1 ∧ p.2.z = 1) :
    ((seq.map (fun p => p.2.z * p.1.c)).sum) = (seq.length : ℚ) := by
  induction seq with
  | nil => simp
  | cons q rest ih =>
    obtain ⟨h1, h2⟩ := hall q (List.mem_cons_self q rest)
    have ih2 := ih (fun r hr => hall r (List.mem_cons_of_mem q hr))
    simp [h1, h2, ih2]
    ring

/-- Existence half for the claim's concrete instance: for a nonempty
sequence, build(seq, None, len(seq), 1) succeeds and returns a structure
whose own c and lattice c equal the accumulated origin.z (the injected
cycle contributes only zero vectors here), with a, b, alpha, beta, gamma
copied from the last visited layer's lattice; for unit-height layers the
resulting c counts the layers. -/
theorem build_unit_stack_instance (seq : List (Structure × Vec3)) (hne : seq ≠ []) :
    ∃ st, build seq none seq.length 1 = some st ∧
      st.c = ((seq.map (fun p => p.2.z * p.1.c)).sum) ∧
      st.latt.c = ((seq.map (fun p => p.2.z * p.1.c)).sum) ∧
      st.a = (seq.getLast hne).1.latt.a ∧ st.b = (seq.getLast hne).1.latt.b ∧
      st.al = (seq.getLast hne).1.latt.al ∧ st.be = (seq.getLast hne).1.latt.be ∧
      st.ga = (seq.getLast hne).1.latt.ga ∧
      ((∀ p ∈ seq, p.1.c = 1 ∧ p.2.z = 1) → st.c = (seq.length : ℚ)) := by
  have hlen : 0 < seq.length := List.length_pos.2 hne
  obtain ⟨st1, hloop, hz, hlast, -⟩ := buildLoop_inv seq seq.length 0
    { ss := { iterable := seq, current := 0 },
      iv := { iterable := [{ x := 0, y := 0, z := 0 }], current := 0 },
      origin := { x := 0, y := 0, z := 0 }, sites := [], last := none }
    (by omega) rfl rfl
  have hlast1 : st1.last = some (seq.getLast hne) := by
    rw [hlast hlen, ← List.getLast?_eq_getElem? seq, List.getLast?_eq_getLast seq hne]
  have hz1 : st1.origin.z = ((seq.map (fun p => p.2.z * p.1.c)).sum) := by
    rw [hz]
    simp
  have hbuild : build seq none seq.length 1 = some
      (Structure.make (applyPeriodicConstraint st1.sites)
        { (seq.getLast hne).1.latt with c := st1.origin.z }) := by
    simp only [build, defaultedIV, one_mul]
    simp only [hloop, hlast1]
  refine ⟨_, hbuild, ?_, ?_, rfl, rfl, rfl, rfl, rfl, ?_⟩
  · exact hz1
  · exact hz1
  · intro hall
    exact hz1.trans (sum_heights_of_unit seq hall)

/-!
C4.  The fractional wraparound pass.  The source intends to wrap fx, fy
into [0,1) ("# apply periodic constraint"), but site.fxyz[i] = coord % 1
assigns into the temporary array returned by the fxyz property getter and
never reaches the site, so the pass has no effect; the claim describes the
intended behaviour, the code is a slip.
-/

/-- C4 (evaluating the code at the failing input): building one layer
whose site is emitted at pre-wrap fx = 1/2 + 4/5 = 1.3 returns that site
with final fx = 1.3, which is not in [0,1); the wrap the claim (and the
source comment) promises would have produced 1.3 mod 1 = 0.3. -/
theorem periodic_wrap_ineffective :
    (build wrapSeq none 1 1).map (fun st => st.sites.map Site.fx) = some [13/10] ∧
    ¬ ((13 : ℚ)/10 < 1) ∧ pyMod1 (13/10) = 3/10 := by
  refine ⟨?_, by norm_num, ?_⟩
  · norm_num [build, defaultedIV, buildLoop, buildStep, PeriodicCycle.next, emitSite,
      applyPeriodicConstraint, wrapSeq, wrapLayer, wrapSite, unitLatt, Structure.make,
      Structure.set_latt, Structure.set_a, Structure.set_b, Structure.set_c, Site.assocLatt,
      Site.setlatt, Site.set_a, Site.set_b, Site.set_c, Site.set_al, Site.set_be, Site.set_ga,
      Site.set_fx, Site.set_fy, Site.set_fz, Site.set_x, Site.set_y, Site.set_z, Site.make]
  · rw [pyMod1, show ⌊(13 : ℚ)/10⌋ = 1 by norm_num [Int.floor_eq_iff]]
    norm_num

/-!
C9.  Degenerate build calls.  The claim states an empty structure is
returned; the source instead fails: with zero iterations the final read of
the loop variable layer raises NameError, and with an empty sequence the
first cursor draw raises IndexError.
-/

/-- C9 (amended): a build call with an empty sequence, or with
nBlocks * blockPeriod = 0, does not return a structure; it fails (none in
the model, NameError on the unbound layer variable or IndexError on the
empty cursor in the source) instead of returning an empty Structure. -/
theorem build_zero_steps_fails (seq : List (Structure × Vec3)) (ivs : Option (List Vec3))
    (bp nb : ℕ) (h : seq = [] ∨ nb * bp = 0) :
    build seq ivs bp nb = none := by
  rcases h with h | h
  · subst h
    cases hn : nb * bp with
    | zero => simp [build, hn, buildLoop]
    | succ m => simp [build, hn, buildLoop, buildStep, PeriodicCycle.next]
  · simp [build, h, buildLoop]

/-- C9 witness: the amended statement at nBlocks = 0. -/
theorem build_zero_steps_fails_witness : build wrapSeq none 1 0 = none :=
  build_zero_steps_fails wrapSeq none 1 0 (Or.inr rfl)

/-- C9 counterexample: with nBlocks = 0 (zero steps) and likewise with an
empty sequence, build yields no structure at all — refuting the claimed
return of an empty Structure with the input lattice's a, b and c = 0. -/
theorem build_zero_steps_cex :
    build wrapSeq none 1 0 = none ∧ build ([] : List (Structure × Vec3)) none 1 1 = none := by
  constructor
  · simp [build, buildLoop]
  · simp [build, buildLoop, buildStep, PeriodicCycle.next]

/-!
C10.  Equality and hashing by the six lattice scalars, inherited by Site
and Structure.
-/

/-- C10: __hash__ and __eq__ read only the six scalar fields a, b, c, al,
be, ga, so two Structures with equal scalars — whatever their site lists —
hash equal and compare equal, and a Structure or a Site compares equal to
a bare Lattice carrying the same six values. -/
theorem lattice_value_equality (st1 st2 : Structure) (s : Site) (L : Lattice)
    (h1 : st1.a = st2.a) (h2 : st1.b = st2.b) (h3 : st1.c = st2.c)
    (h4 : st1.al = st2.al) (h5 : st1.be = st2.be) (h6 : st1.ga = st2.ga)
    (g1 : st1.a = L.a) (g2 : st1.b = L.b) (g3 : st1.c = L.c)
    (g4 : st1.al = L.al) (g5 : st1.be = L.be) (g6 : st1.ga = L.ga)
    (k1 : s.a = L.a) (k2 : s.b = L.b) (k3 : s.c = L.c)
    (k4 : s.al = L.al) (k5 : s.be = L.be) (k6 : s.ga = L.ga) :
    st1.pyHash = st2.pyHash ∧ st1.pyEq st2 = true ∧
    st1.pyEqLatt L = true ∧ s.pyEqLatt L = true := by
  have m1 : st2.a = L.a := h1 ▸ g1
  have m2 : st2.b = L.b := h2 ▸ g2
  have m3 : st2.c = L.c := h3 ▸ g3
  have m4 : st2.al = L.al := h4 ▸ g4
  have m5 : st2.be = L.be := h5 ▸ g5
  have m6 : st2.ga = L.ga := h6 ▸ g6
  simp [Structure.pyEq, Structure.pyEqLatt, Site.pyEqLatt, Structure.pyHash, Site.pyHash,
    Lattice.pyHash, h1, h2, h3, h4, h5, h6, m1, m2, m3, m4, m5, m6, k1, k2, k3, k4, k5, k6]

/-- C10 witness: two structures over scenLatt with different site lists
hash equal and compare equal, and both a structure and a site compare
equal to the bare scenLatt. -/
theorem lattice_value_equality_witness :
    eqStA.pyHash = eqStB.pyHash ∧ eqStA.pyEq eqStB = true ∧
    eqStA.pyEqLatt scenLatt = true ∧ mnSite.pyEqLatt scenLatt = true :=
  lattice_value_equality eqStA eqStB mnSite scenLatt rfl rfl rfl rfl rfl rfl rfl rfl rfl
    rfl rfl rfl rfl rfl rfl rfl rfl rfl

/-- Drawing from an empty cyclic cursor fails (IndexError in the source). -/
theorem PeriodicCycle.next_nil {α : Type} (c : ℕ) :
    PeriodicCycle.next (⟨[], c⟩ : PeriodicCycle α) = none := by
  simp [PeriodicCycle.next]

/-- From the cursor position reached after k draws, the next draw yields
the element at index k mod N and moves to the position after k + 1 draws:
the cyclic cursor enumerates the list with cyclic repetition. -/
theorem PeriodicCycle.next_cursorAfter {α : Type} (l : List α) (k : ℕ) (h : 0 < l.length) :
    PeriodicCycle.next ⟨l, cursorAfter l.length k⟩ =
      some (l.get ⟨k % l.length, Nat.mod_lt _ h⟩, ⟨l, cursorAfter l.length (k + 1)⟩) := by
  cases k with
  | zero =>
    have h0 : (0 : ℕ) % l.length = 0 := Nat.zero_mod _
    have hcur : cursorAfter l.length 0 = 0 := rfl
    have hcur1 : cursorAfter l.length 1 = 1 := by simp [cursorAfter]
    rw [hcur, hcur1]
    unfold PeriodicCycle.next
    have hget : l[(0 : ℕ)]? = some (l.get ⟨0, h⟩) := by
      rw [List.getElem?_eq_getElem h]
      rfl
    by_cases hc : (0 : ℕ) > l.length - 1
    · simp only [if_pos hc, hget]
      congr 1
    · simp only [if_neg hc, hget]
      congr 1
  | succ m =>
    have hm : m % l.length < l.length := Nat.mod_lt _ h
    have hcur : cursorAfter l.length (m + 1) = m % l.length + 1 := by
      simp [cursorAfter]
    have hsplit : (m + 1) % l.length = (m % l.length + 1) % l.length := by
      conv_lhs => rw [show m + 1 = l.length * (m / l.length) + (m % l.length + 1) by
        have := Nat.div_add_mod m l.length
        omega]
      rw [Nat.mul_add_mod]
    rw [hcur]
    unfold PeriodicCycle.next
    by_cases hr : m % l.length + 1 > l.length - 1
    · have hml : m % l.length = l.length - 1 := by omega
      have hmod : (m + 1) % l.length = 0 := by
        rw [hsplit, hml, show l.length - 1 + 1 = l.length by omega, Nat.mod_self]
      have hget : l[(0 : ℕ)]? = some (l.get ⟨0, h⟩) := by
        rw [List.getElem?_eq_getElem h]
        rfl
      simp only [if_pos hr, hget]
      have hcurnext : cursorAfter l.length (m + 1 + 1) = 1 := by
        simp [cursorAfter, hmod]
      rw [hcurnext]
      congr 2
      simp [hmod]
    · have hidx : m % l.length + 1 < l.length := by omega
      have hmod : (m + 1) % l.length = m % l.length + 1 := by
        rw [hsplit, Nat.mod_eq_of_lt hidx]
      have hget : l[m % l.length + 1]? = some (l.get ⟨m % l.length + 1, hidx⟩) := by
        rw [List.getElem?_eq_getElem hidx]
        rfl
      simp only [if_neg hr, hget]
      have hcurnext : cursorAfter l.length (m + 1 + 1) = m % l.length + 1 + 1 := by
        simp [cursorAfter, hmod]
      rw [hcurnext]
      congr 2
      simp [hmod]

/-- Unfolding equation: the injections among indices below k + 1 are those
below k, plus one more when index k is an injection point. -/
theorem injCount_succ (bp k : ℕ) :
    injCount bp (k + 1) = injCount bp k + (if k ≠ 0 ∧ (k + 1) % bp = 0 then 1 else 0) := rfl

/-- injCount is monotone in the number of steps. -/
theorem injCount_mono (bp : ℕ) : ∀ {a b : ℕ}, a ≤ b → injCount bp a ≤ injCount bp b := by
  intro a b hab
  induction b with
  | zero =>
    have : a = 0 := by omega
    subst this
    exact le_refl _
  | succ n ihn =>
    rcases Nat.lt_or_ge a (n + 1) with hlt | hge
    · refine le_trans (ihn (by omega)) ?_
      rw [injCount_succ]
      split <;> omega
    · have : a = n + 1 := by omega
      subst this
      exact le_refl _

/-- At a cyclically valid index, layerHeightAt is the drawn pair's
vector.z * layer.c. -/
theorem layerHeightAt_eq (seq : List (Structure × Vec3)) (idx : ℕ) (h : 0 < seq.length) :
    layerHeightAt seq idx =
      (seq.get ⟨idx % seq.length, Nat.mod_lt _ h⟩).2.z *
        (seq.get ⟨idx % seq.length, Nat.mod_lt _ h⟩).1.c := by
  have hlt : idx % seq.length < seq.length := Nat.mod_lt _ h
  simp [layerHeightAt, List.getElem?_eq_getElem hlt]

/-- At a cyclically valid index, ivZAt is the drawn vector's z. -/
theorem ivZAt_eq (ivlist : List Vec3) (j : ℕ) (h : 0 < ivlist.length) :
    ivZAt ivlist j = (ivlist.get ⟨j % ivlist.length, Nat.mod_lt _ h⟩).z := by
  have hlt : j % ivlist.length < ivlist.length := Nat.mod_lt _ h
  simp [ivZAt, List.getElem?_eq_getElem hlt]

/-- General loop invariant: whenever the remaining count steps from index
idx succeed (from a state whose cursors sit at the canonical positions
after idx draws and injCount bp idx injections), the final origin.z has
accumulated the height contribution vector.z * layer.c of every step and
the z-component of every injected interlayer vector, and the last bound
pair is the cyclically indexed final sequence entry. -/
theorem buildLoop_origin_spec (bp : ℕ) (seq : List (Structure × Vec3)) (ivlist : List Vec3) :
    ∀ (count idx : ℕ) (st st1 : BuildState),
      buildLoop bp count idx st = some st1 →
      st.ss = ⟨seq, cursorAfter seq.length idx⟩ →
      st.iv = ⟨ivlist, cursorAfter ivlist.length (injCount bp idx)⟩ →
      st1.origin.z = st.origin.z
          + ((List.range' idx count).map (layerHeightAt seq)).sum
          + ((List.range' (injCount bp idx)
              (injCount bp (idx + count) - injCount bp idx)).map (ivZAt ivlist)).sum ∧
      (0 < count → st1.last = seq[(idx + count - 1) % seq.length]?) ∧
      (count = 0 → st1 = st) := by
  intro count
  induction count with
  | zero =>
    intro idx st st1 hloop hss hiv
    have h1 : st1 = st := (Option.some.inj hloop).symm
    subst h1
    refine ⟨by simp, ?_, fun _ => rfl⟩
    intro hk
    exact absurd hk (by omega)
  | succ n ih =>
    intro idx st st1 hloop hss hiv
    simp only [buildLoop] at hloop
    cases hstep : buildStep bp idx st with
    | none =>
      simp only [hstep] at hloop
      exact Option.noConfusion hloop
    | some stm =>
      simp only [hstep] at hloop
      have hN : 0 < seq.length := by
        rcases seq with _ | ⟨p, rest⟩
        · exfalso
          have hnone : buildStep bp idx st = none := by
            simp only [buildStep, hss, PeriodicCycle.next_nil]
          rw [hnone] at hstep
          exact Option.noConfusion hstep
        · simp
      have hidxlt : idx % seq.length < seq.length := Nat.mod_lt _ hN
      have hnext : st.ss.next =
          some (seq.get ⟨idx % seq.length, Nat.mod_lt _ hN⟩,
            ⟨seq, cursorAfter seq.length (idx + 1)⟩) := by
        rw [hss]
        exact PeriodicCycle.next_cursorAfter seq idx hN
      by_cases hinj : idx ≠ 0 ∧ (idx + 1) % bp = 0
      · -- injection step
        have hM : 0 < ivlist.length := by
          rcases ivlist with _ | ⟨v, vs⟩
          · exfalso
            have hnone : buildStep bp idx st = none := by
              simp only [buildStep, hnext, if_pos hinj, hiv, PeriodicCycle.next_nil]
            rw [hnone] at hstep
            exact Option.noConfusion hstep
          · simp
        have hivnext : st.iv.next =
            some (ivlist.get ⟨injCount bp idx % ivlist.length, Nat.mod_lt _ hM⟩,
              ⟨ivlist, cursorAfter ivlist.length (injCount bp idx + 1)⟩) := by
          rw [hiv]
          exact PeriodicCycle.next_cursorAfter ivlist (injCount bp idx) hM
        have heval : buildStep bp idx st = some
            { ss := ⟨seq, cursorAfter seq.length (idx + 1)⟩,
              iv := ⟨ivlist, cursorAfter ivlist.length (injCount bp idx + 1)⟩,
              origin := { x := st.origin.x +
                            (ivlist.get ⟨injCount bp idx % ivlist.length, Nat.mod_lt _ hM⟩).x,
                          y := st.origin.y +
                            (ivlist.get ⟨injCount bp idx % ivlist.length, Nat.mod_lt _ hM⟩).y,
                          z := st.origin.z +
                            (ivlist.get ⟨injCount bp idx % ivlist.length, Nat.mod_lt _ hM⟩).z +
                            (seq.get ⟨idx % seq.length, Nat.mod_lt _ hN⟩).2.z *
                            (seq.get ⟨idx % seq.length, Nat.mod_lt _ hN⟩).1.c },
              sites := st.sites ++
                (seq.get ⟨idx % seq.length, Nat.mod_lt _ hN⟩).1.sites.map
                  (emitSite (seq.get ⟨idx % seq.length, Nat.mod_lt _ hN⟩).1
                    (seq.get ⟨idx % seq.length, Nat.mod_lt _ hN⟩).2 st.origin.z),
              last := some ((seq.get ⟨idx % seq.length, Nat.mod_lt _ hN⟩).1,
                (seq.get ⟨idx % seq.length, Nat.mod_lt _ hN⟩).2) } := by
          simp only [buildStep, hnext, if_pos hinj, hivnext]
        have hREC := Option.some.inj (heval.symm.trans hstep)
        have hssm : stm.ss = ⟨seq, cursorAfter seq.length (idx + 1)⟩ := by rw [← hREC]
        have hivm : stm.iv =
            ⟨ivlist, cursorAfter ivlist.length (injCount bp idx + 1)⟩ := by rw [← hREC]
        have hzm : stm.origin.z = st.origin.z + ivZAt ivlist (injCount bp idx)
            + layerHeightAt seq idx := by
          rw [ivZAt_eq ivlist (injCount bp idx) hM, layerHeightAt_eq seq idx hN, ← hREC]
        have hlastm : stm.last = some (seq.get ⟨idx % seq.length, Nat.mod_lt _ hN⟩) := by
          rw [← hREC]
        have hj1 : injCount bp (idx + 1) = injCount bp idx + 1 := by
          rw [injCount_succ, if_pos hinj]
        obtain ⟨hz, hlast, hzero⟩ := ih (idx + 1) stm st1 hloop hssm (by rw [hj1]; exact hivm)
        refine ⟨?_, ?_, fun hk => absurd hk (by omega)⟩
        · rw [hz, hzm]
          have harg : idx + 1 + n = idx + (n + 1) := by omega
          rw [harg, hj1]
          have hK : injCount bp idx + 1 ≤ injCount bp (idx + (n + 1)) := by
            rw [← hj1]
            exact injCount_mono bp (by omega)
          have hsub : injCount bp (idx + (n + 1)) - injCount bp idx
              = (injCount bp (idx + (n + 1)) - (injCount bp idx + 1)) + 1 := by omega
          rw [hsub, List.range'_succ idx n 1, List.range'_succ (injCount bp idx) _ 1]
          simp only [List.map_cons, List.sum_cons]
          ring
        · intro _
          cases n with
          | zero =>
            rw [hzero rfl, hlastm]
            have e : idx + (0 + 1) - 1 = idx := by omega
            rw [e, List.getElem?_eq_getElem hidxlt]
            rfl
          | succ m =>
            have h0 := hlast (by omega)
            have e : idx + 1 + (m + 1) - 1 = idx + (m + 1 + 1) - 1 := by omega
            rw [e] at h0
            exact h0
      · -- no injection
        have heval : buildStep bp idx st = some
            { ss := ⟨seq, cursorAfter seq.length (idx + 1)⟩,
              iv := st.iv,
              origin := { x := st.origin.x, y := st.origin.y,
                          z := st.origin.z +
                            (seq.get ⟨idx % seq.length, Nat.mod_lt _ hN⟩).2.z *
                            (seq.get ⟨idx % seq.length, Nat.mod_lt _ hN⟩).1.c },
              sites := st.sites ++
                (seq.get ⟨idx % seq.length, Nat.mod_lt _ hN⟩).1.sites.map
                  (emitSite (seq.get ⟨idx % seq.length, Nat.mod_lt _ hN⟩).1
                    (seq.get ⟨idx % seq.length, Nat.mod_lt _ hN⟩).2 st.origin.z),
              last := some ((seq.get ⟨idx % seq.length, Nat.mod_lt _ hN⟩).1,
                (seq.get ⟨idx % seq.length, Nat.mod_lt _ hN⟩).2) } := by
          simp only [buildStep, hnext, if_neg hinj]
        have hREC := Option.some.inj (heval.symm.trans hstep)
        have hssm : stm.ss = ⟨seq, cursorAfter seq.length (idx + 1)⟩ := by rw [← hREC]
        have hivm : stm.iv = st.iv := by rw [← hREC]
        have hzm : stm.origin.z = st.origin.z + layerHeightAt seq idx := by
          rw [layerHeightAt_eq seq idx hN, ← hREC]
        have hlastm : stm.last = some (seq.get ⟨idx % seq.length, Nat.mod_lt _ hN⟩) := by
          rw [← hREC]
        have hj1 : injCount bp (idx + 1) = injCount bp idx := by
          rw [injCount_succ, if_neg hinj]
          omega
        obtain ⟨hz, hlast, hzero⟩ := ih (idx + 1) stm st1 hloop hssm
          (by rw [hj1]; rw [hivm]; exact hiv)
        refine ⟨?_, ?_, fun hk => absurd hk (by omega)⟩
        · rw [hz, hzm]
          have harg : idx + 1 + n = idx + (n + 1) := by omega
          rw [harg, hj1, List.range'_succ idx n 1]
          simp only [List.map_cons, List.sum_cons]
          ring
        · intro _
          cases n with
          | zero =>
            rw [hzero rfl, hlastm]
            have e : idx + (0 + 1) - 1 = idx := by omega
            rw [e, List.getElem?_eq_getElem hidxlt]
            rfl
          | succ m =>
            have h0 := hlast (by omega)
            have e : idx + 1 + (m + 1) - 1 = idx + (m + 1 + 1) - 1 := by omega
            rw [e] at h0
            exact h0
/-- For every build call that returns a structure, the returned scalar c
(both the structure's own field and its lattice's) equals the accumulated
origin.z: the sum over all Nblocks * blockperiod steps of
vector.z * layer.c plus the z-components of all injected interlayer
vectors, and a, b, al, be, ga are copied from the last visited layer's
lattice, the cyclically indexed final sequence entry. -/
theorem build_height_spec (seq : List (Structure × Vec3)) (ivs : Option (List Vec3))
    (bp nb : ℕ) (st : Structure) (hbuild : build seq ivs bp nb = some st) :
    st.c = ((List.range (nb * bp)).map (layerHeightAt seq)).sum
        + ((List.range (injCount bp (nb * bp))).map (ivZAt (defaultedIV ivs))).sum ∧
    st.latt.c = ((List.range (nb * bp)).map (layerHeightAt seq)).sum
        + ((List.range (injCount bp (nb * bp))).map (ivZAt (defaultedIV ivs))).sum ∧
    ∃ lv, seq[(nb * bp - 1) % seq.length]? = some lv ∧
      st.a = lv.1.latt.a ∧ st.b = lv.1.latt.b ∧
      st.al = lv.1.latt.al ∧ st.be = lv.1.latt.be ∧ st.ga = lv.1.latt.ga := by
  simp only [build] at hbuild
  cases hloop : buildLoop bp (nb * bp) 0
      { ss := { iterable := seq, current := 0 },
        iv := { iterable := defaultedIV ivs, current := 0 },
        origin := { x := 0, y := 0, z := 0 }, sites := [], last := none } with
  | none =>
    simp only [hloop] at hbuild
    exact Option.noConfusion hbuild
  | some finSt =>
    simp only [hloop] at hbuild
    cases hlast : finSt.last with
    | none =>
      simp only [hlast] at hbuild
      exact Option.noConfusion hbuild
    | some lv =>
      simp only [hlast] at hbuild
      have hst := (Option.some.inj hbuild).symm
      obtain ⟨hz, hlastinv, hzero⟩ :=
        buildLoop_origin_spec bp seq (defaultedIV ivs) (nb * bp) 0 _ finSt hloop rfl rfl
      have hn : 0 < nb * bp := by
        rcases Nat.eq_zero_or_pos (nb * bp) with h0 | h0
        · exfalso
          have hfin := hzero h0
          rw [hfin] at hlast
          exact Option.noConfusion hlast
        · exact h0
      have h2 := hlastinv hn
      rw [Nat.zero_add] at h2
      have hlv : seq[(nb * bp - 1) % seq.length]? = some lv := h2.symm.trans hlast
      have hzval : finSt.origin.z = ((List.range (nb * bp)).map (layerHeightAt seq)).sum
          + ((List.range (injCount bp (nb * bp))).map (ivZAt (defaultedIV ivs))).sum := by
        rw [hz]
        simp [List.range_eq_range', injCount]
      subst hst
      exact ⟨hzval, hzval, lv, hlv, rfl, rfl, rfl, rfl, rfl⟩

/-- C2: (general part) for every call of build that returns a structure —
every call with at least one step that completes — the returned lattice
has c equal to the final accumulated origin.z, that is, the sum over all
Nblocks * blockperiod steps of vector.z * layer.c plus the z-components of
all injected interlayer vectors, and copies a, b, alpha, beta, gamma from
the last visited layer's lattice; (instance part) for a sequence of M
layers each with layer.c = 1 and vector.z = 1, blockPeriod = M,
nBlocks = 1 and no interlayer vectors, build succeeds and the resulting
lattice's c equals M. -/
theorem build_stack_height :
    (∀ (seq : List (Structure × Vec3)) (ivs : Option (List Vec3)) (bp nb : ℕ) (st : Structure),
      build seq ivs bp nb = some st →
      st.c = ((List.range (nb * bp)).map (layerHeightAt seq)).sum
          + ((List.range (injCount bp (nb * bp))).map (ivZAt (defaultedIV ivs))).sum ∧
      st.latt.c = ((List.range (nb * bp)).map (layerHeightAt seq)).sum
          + ((List.range (injCount bp (nb * bp))).map (ivZAt (defaultedIV ivs))).sum ∧
      ∃ lv, seq[(nb * bp - 1) % seq.length]? = some lv ∧
        st.a = lv.1.latt.a ∧ st.b = lv.1.latt.b ∧
        st.al = lv.1.latt.al ∧ st.be = lv.1.latt.be ∧ st.ga = lv.1.latt.ga) ∧
    (∀ (seq : List (Structure × Vec3)) (hne : seq ≠ []),
      (∀ p ∈ seq, p.1.c = 1 ∧ p.2.z = 1) →
      ∃ st, build seq none seq.length 1 = some st ∧ st.c = (seq.length : ℚ)) := by
  constructor
  · exact build_height_spec
  · intro seq hne hall
    obtain ⟨st, hb, _, _, _, _, _, _, _, hinst⟩ := build_unit_stack_instance seq hne
    exact ⟨st, hb, hinst hall⟩

/-- C2 witness: the general part applied to a concrete call with two
blocks of period two and a nonzero interlayer cycle (c2Seq drawn
cyclically for four steps, two injections of z = 3, so c = 4 + 6 = 10),
and the instance part applied to the two-layer unit-height sequence. -/
theorem build_stack_height_witness :
    (stackW.c = ((List.range (2 * 2)).map (layerHeightAt c2Seq)).sum
        + ((List.range (injCount 2 (2 * 2))).map (ivZAt (defaultedIV (some stackIVW)))).sum) ∧
    (build c2Seq none c2Seq.length 1).map Structure.c = some ((c2Seq.length : ℚ)) := by
  constructor
  · have hb : build c2Seq (some stackIVW) 2 2 = some stackW := by
      norm_num [build, defaultedIV, buildLoop, buildStep, PeriodicCycle.next, emitSite,
        applyPeriodicConstraint, c2Seq, c2LayerA, c2LayerB, c2LattA, c2LattB, stackIVW, stackW,
        Structure.make, Structure.set_latt, Structure.set_a, Structure.set_b, Structure.set_c,
        Site.assocLatt, Site.setlatt, Site.set_a, Site.set_b, Site.set_c, Site.set_al,
        Site.set_be, Site.set_ga, Site.set_fx, Site.set_fy, Site.set_fz, Site.set_x, Site.set_y,
        Site.set_z, Site.make]
    exact (build_stack_height.1 c2Seq (some stackIVW) 2 2 stackW hb).1
  · obtain ⟨st, hb, hc⟩ := build_stack_height.2 c2Seq (by simp [c2Seq])
      (by
        intro p hp
        simp only [c2Seq, List.mem_cons, List.mem_singleton] at hp
        rcases hp with rfl | rfl | h
        · exact ⟨rfl, rfl⟩
        · exact ⟨rfl, rfl⟩
        · cases h)
    rw [hb]
    simp only [Option.map_some', hc]

end CPS
